import Mathlib

/-!
Shallow embedding of `src/float16_t.hpp` (MajorMurphy/float16_t).

The two conversion routines `float32_to_float16` and `float16_to_float32`
operate on raw IEEE bit patterns, so they are modelled as functions on `Nat`
bit patterns (`u < 2^32` resp. `h < 2^16`), with the C++ unsigned casts made
explicit (`to16` = `static_cast<std::uint16_t>`, `u32` = 32-bit truncation).
Local variables of the C++ functions are lifted to named helper definitions
so that theorems can speak about them.

Value semantics: `sval32 w` (resp. `sval16 h`) is the real number denoted by a
finite binary32 (binary16) pattern, scaled by `2^149` so that it is an exact
integer (the smallest positive binary32 subnormal is `2^-149`), and `valQ` is
the corresponding rational value.
-/

namespace Float16T

/-- Model of `static_cast<std::uint16_t>(val)` (float16_t.hpp line 40). -/
def to16 (x : Nat) : Nat := x % 65536

/-- truncation to `std::uint32_t`. -/
def u32 (x : Nat) : Nat := x % 4294967296

/-- Source local `std::uint32_t sign = u32 & 0x80000000;` (line 78). -/
def f32_sign (u : Nat) : Nat := u &&& 0x80000000

/-- Source local `std::uint32_t exponent = u32 & 0x7f800000;` (line 79). -/
def f32_exponent (u : Nat) : Nat := u &&& 0x7f800000

/-- Source local `std::uint32_t coef = u32 & 0x7fffff;` (line 80). -/
def f32_coef (u : Nat) : Nat := u &&& 0x7fffff

/-- Source local `std::uint32_t half_sign = sign >> 16;` (line 92). -/
def half_sign (u : Nat) : Nat := f32_sign u >>> 16

/-- Source local `std::int32_t unbiased_exponent = static_cast<std::uint32_t>(exponent >> 23) - 127;`
(line 93; the wrap-around of the unsigned subtraction followed by the signed
conversion yields the mathematical value `(exponent >> 23) - 127`). -/
def unbiased_exponent (u : Nat) : Int := (f32_exponent u >>> 23 : Nat) - 127

/-- Source local `std::int32_t half_exponent = unbiased_exponent + 15;` (line 94). -/
def half_exponent (u : Nat) : Int := unbiased_exponent u + 15

/-- Narrowing conversion `float32_to_float16` (lines 72-122), on the raw binary32
bit pattern of the `float` argument. -/
def float32_to_float16 (u : Nat) : Nat :=
  if f32_exponent u = 0x7f800000 then
    to16 ((f32_sign u >>> 16) ||| 0x7c00 |||
      (if f32_coef u ≠ 0 then 0x200 else 0) ||| (f32_coef u >>> 13))
  else if half_exponent u = 0x1f then
    to16 (half_sign u ||| 0x7c00)
  else if half_exponent u ≤ 0 then
    if half_exponent u < -10 then
      to16 (half_sign u)
    else
      let c := f32_coef u ||| 0x800000
      let half_coef := c >>> (14 - half_exponent u).toNat
      let round_bit := 1 <<< (13 - half_exponent u).toNat
      if c &&& round_bit ≠ 0 ∧ c &&& (3 * round_bit - 1) ≠ 0 then
        to16 (half_sign u ||| (half_coef + 1))
      else
        to16 (half_sign u ||| half_coef)
  else
    let uhalf_exponent := (half_exponent u).toNat <<< 10
    let half_coef := f32_coef u >>> 13
    let round_bit := 0x1000
    if f32_coef u &&& round_bit ≠ 0 ∧ f32_coef u &&& (3 * round_bit - 1) ≠ 0 then
      to16 ((half_sign u ||| uhalf_exponent ||| half_coef) + 1)
    else
      to16 (half_sign u ||| uhalf_exponent ||| half_coef)

/-- The `while( coef & 0x7f800000 ) { coef <<= 1; --exponent; }` loop of
`float16_to_float32` (lines 145-149), with `coef` and `exponent` as
`std::uint32_t`.  A 32-bit value shifted left 32 times is zero, so fuel 32
makes the fuelled recursion exact for every start state. -/
def subnormal_loop : Nat → Nat → Nat → Nat × Nat
  | 0, coef, exponent => (coef, exponent)
  | fuel + 1, coef, exponent =>
    if coef &&& 0x7f800000 ≠ 0 then
      subnormal_loop fuel (u32 (coef <<< 1)) (u32 (exponent + 4294967295))
    else
      (coef, exponent)

/-- Widening conversion `float16_to_float32` (lines 124-155), returning the raw
binary32 bit pattern of the returned `float32` union. -/
def float16_to_float32 (input : Nat) : Nat :=
  let sign := (input &&& 0x8000) <<< 16
  let exponent := (input &&& 0x7c00) >>> 10
  let coef := (input &&& 0x3ff) <<< 13
  if exponent = 0x1f then
    if coef = 0 then sign ||| 0x7f800000 ||| coef
    else sign ||| 0x7fc00000 ||| coef
  else if exponent = 0 then
    if coef = 0 then sign
    else
      let p := subnormal_loop 32 coef (exponent + 1)
      let coef2 := p.1 &&& 0x7fffff
      sign ||| u32 (u32 (p.2 + 0x70) <<< 23) ||| coef2
  else
    sign ||| u32 ((exponent + 0x70) <<< 23) ||| coef

/-- Unary `operator - () const` (lines 267-270): `(bits & 0x7fff) | (bits ^ 0x8000)`
cast back to `std::uint16_t`. -/
def float16_neg (h : Nat) : Nat := to16 ((h &&& 0x7fff) ||| (h ^^^ 0x8000))

/-- Predicate `is_nan` (lines 474-477). -/
def is_nan (h : Nat) : Bool := decide ((h &&& 0x7fff) > 0x7f80)

/-- Predicate `is_inf` (lines 479-482). -/
def is_inf (h : Nat) : Bool := decide ((h &&& 0x7fff) = 0x7f80)

/-- Predicate `is_finite` (lines 484-487). -/
def is_finite (h : Nat) : Bool := decide ((h &&& 0x7f80) ≠ 0x7f80)

/-- Predicate `is_normal` (lines 489-493). -/
def is_normal (h : Nat) : Bool :=
  decide ((h &&& 0x7f80) ≠ 0x7f80) && decide ((h &&& 0x7f80) ≠ 0)

/-- Constant `fp16_infinity` (line 279). -/
def fp16_infinity : Nat := 0x7c00

/-- Constant `fp16_nan` (line 285). -/
def fp16_nan : Nat := 0x7e00

/-- Constant `fp16_zero` (line 289). -/
def fp16_zero : Nat := 0x0

/-- Constant `fp16_zero_negative` (line 290). -/
def fp16_zero_negative : Nat := 0x8000

/-- The wrapper produced by `make_binary_function` for `fmax` (line 415):
promote both halves, apply the host's 32-bit function, narrow the result.
The host float function `std::fmax` is treated as an oracle on binary32 bit
patterns. -/
def fmax16 (hostFmax : Nat → Nat → Nat) (f1 f2 : Nat) : Nat :=
  float32_to_float16 (hostFmax (float16_to_float32 f1) (float16_to_float32 f2))

/-- The wrapper produced by `make_binary_function` for `fmin` (line 416).
The source passes `std::fmax` — the same host function as `fmax` — to the
adapter, so the model takes that same oracle argument. -/
def fmin16 (hostFmax : Nat → Nat → Nat) (f1 f2 : Nat) : Nat :=
  float32_to_float16 (hostFmax (float16_to_float32 f1) (float16_to_float32 f2))

/-- Stream extraction `operator >>` (lines 364-380).  The host parse `is >> __v` is modelled by
its outcome `parsed : Option Nat` (the binary32 pattern of the parsed float on
success).  The result is the new stored bit pattern of the target together
with whether the failbit was set: on parse failure the target `f` is left
unchanged and `failbit` is set; on success the parsed value is narrowed into
the target (line 373, via `operator = (float)` → `float32_to_float16`). -/
def istream_read (parsed : Option Nat) (f : Nat) : Nat × Bool :=
  match parsed with
  | some v => (float32_to_float16 v, false)
  | none => (f, true)

/-- Magnitude denoted by a binary32 pattern with exponent field below `0xff`,
scaled by `2^149` (so it is an exact natural number: the smallest positive
binary32 subnormal is `2^-149`). -/
def smag32 (w : Nat) : Nat :=
  let e := (w >>> 23) &&& 0xff
  let f := w &&& 0x7fffff
  if e = 0 then f else (8388608 + f) * 2 ^ (e - 1)

/-- Value of a finite binary32 pattern, scaled by `2^149` (exact integer). -/
def sval32 (w : Nat) : Int :=
  if w >>> 31 % 2 = 1 then -(smag32 w : Int) else (smag32 w : Int)

/-- Magnitude denoted by a binary16 pattern with exponent field below `0x1f`,
scaled by `2^149`. -/
def smag16 (h : Nat) : Nat :=
  let e := (h >>> 10) &&& 0x1f
  let f := h &&& 0x3ff
  if e = 0 then f * 2 ^ 125 else (1024 + f) * 2 ^ (e + 124)

/-- Value of a finite binary16 pattern, scaled by `2^149` (exact integer). -/
def sval16 (h : Nat) : Int :=
  if h >>> 15 % 2 = 1 then -(smag16 h : Int) else (smag16 h : Int)

/-- Rational value of a finite binary32 pattern. -/
def valQ (w : Nat) : ℚ := (sval32 w : ℚ) / ((2 ^ 149 : ℕ) : ℚ)

/-- A binary32 pattern is finite iff its exponent field is not all ones. -/
def f32_finite (w : Nat) : Prop := w &&& 0x7f800000 ≠ 0x7f800000

instance (w : Nat) : Decidable (f32_finite w) := by
  unfold f32_finite; exact inferInstance

/-- `w` is the unique nearest finite binary32 pattern to the rational `q`:
every other finite pattern's value is strictly farther from `q`. -/
def isNearestF32 (w : Nat) (q : ℚ) : Prop :=
  w < 2 ^ 32 ∧ f32_finite w ∧
    ∀ v, v < 2 ^ 32 → f32_finite v → v ≠ w → |valQ w - q| < |valQ v - q|

/-- Modelled from the spec's words (§4.1 step 4/5): round-to-nearest,
ties-to-even decision for dropping the low `k+1` bits of `sig` (bit `k` is the
round bit): round up iff the discarded part exceeds half an ulp, or equals
half an ulp while the kept mantissa is odd. -/
def rne_round_up (sig k : Nat) : Prop :=
  2 ^ k < sig % 2 ^ (k + 1) ∨
    (sig % 2 ^ (k + 1) = 2 ^ k ∧ sig / 2 ^ (k + 1) % 2 = 1)

instance (sig k : Nat) : Decidable (rne_round_up sig k) := by
  unfold rne_round_up; exact inferInstance

/-- The five categories of claim C4, with `zero` and `subnormal` read on the
binary16 fields as the claim words them (`is_nan`/`is_inf`/`is_normal` are the
code's predicates). -/
def categoryCount (h : Nat) : Nat :=
  (if is_nan h then 1 else 0) + (if is_inf h then 1 else 0) +
  (if is_normal h then 1 else 0) +
  (if h &&& 0x7fff = 0 then 1 else 0) +
  (if h &&& 0x7c00 = 0 ∧ h &&& 0x3ff ≠ 0 then 1 else 0)

/-- The same five categories with `subnormal` read through the code's own
(float32-layout) exponent mask `0x7f80`: exponent-mask bits clear and some
non-sign bit set. -/
def categoryCountCodeMask (h : Nat) : Nat :=
  (if is_nan h then 1 else 0) + (if is_inf h then 1 else 0) +
  (if is_normal h then 1 else 0) +
  (if h &&& 0x7fff = 0 then 1 else 0) +
  (if h &&& 0x7f80 = 0 ∧ h &&& 0x7fff ≠ 0 then 1 else 0)


/-! ### Bit-manipulation toolkit -/

theorem split_and (n : ℕ) : ∀ a b c d : ℕ, b < 2 ^ n → d < 2 ^ n →
    (a * 2 ^ n + b) &&& (c * 2 ^ n + d) = (a &&& c) * 2 ^ n + (b &&& d) := by
  induction n with
  | zero =>
    intro a b c d hb hd
    simp only [pow_zero, Nat.lt_one_iff] at hb hd
    subst hb; subst hd
    simp
  | succ n ih =>
    intro a b c d hb hd
    have hp : (2 : ℕ) ^ (n + 1) = 2 * 2 ^ n := by ring
    have ihx := ih (a := a) (b := b / 2) (c := c) (d := d / 2) (by omega) (by omega)
    have ea : a * 2 ^ (n + 1) = 2 * (a * 2 ^ n) := by ring
    have ec : c * 2 ^ (n + 1) = 2 * (c * 2 ^ n) := by ring
    have eac : (a &&& c) * 2 ^ (n + 1) = 2 * ((a &&& c) * 2 ^ n) := by ring
    have f1 : (a * 2 ^ (n + 1) + b) / 2 = a * 2 ^ n + b / 2 := by
      rw [ea, Nat.mul_add_div (by omega)]
    have f2 : (a * 2 ^ (n + 1) + b) % 2 = b % 2 := by
      rw [ea, Nat.mul_add_mod]
    have f3 : (c * 2 ^ (n + 1) + d) / 2 = c * 2 ^ n + d / 2 := by
      rw [ec, Nat.mul_add_div (by omega)]
    have f4 : (c * 2 ^ (n + 1) + d) % 2 = d % 2 := by
      rw [ec, Nat.mul_add_mod]
    have key := Nat.div_add_mod ((a * 2 ^ (n + 1) + b) &&& (c * 2 ^ (n + 1) + d)) 2
    rw [Nat.and_div_two, f1, f3, ihx] at key
    have keyr := Nat.div_add_mod (b &&& d) 2
    rw [Nat.and_div_two] at keyr
    have hm1 := Nat.and_mod_two_eq_one (a := a * 2 ^ (n + 1) + b) (b := c * 2 ^ (n + 1) + d)
    have hm2 := Nat.and_mod_two_eq_one (a := b) (b := d)
    rw [f2, f4] at hm1
    rw [eac]
    omega

theorem split_or (n : ℕ) : ∀ a b c d : ℕ, b < 2 ^ n → d < 2 ^ n →
    (a * 2 ^ n + b) ||| (c * 2 ^ n + d) = (a ||| c) * 2 ^ n + (b ||| d) := by
  induction n with
  | zero =>
    intro a b c d hb hd
    simp only [pow_zero, Nat.lt_one_iff] at hb hd
    subst hb; subst hd
    simp
  | succ n ih =>
    intro a b c d hb hd
    have hp : (2 : ℕ) ^ (n + 1) = 2 * 2 ^ n := by ring
    have ihx := ih (a := a) (b := b / 2) (c := c) (d := d / 2) (by omega) (by omega)
    have ea : a * 2 ^ (n + 1) = 2 * (a * 2 ^ n) := by ring
    have ec : c * 2 ^ (n + 1) = 2 * (c * 2 ^ n) := by ring
    have eac : (a ||| c) * 2 ^ (n + 1) = 2 * ((a ||| c) * 2 ^ n) := by ring
    have f1 : (a * 2 ^ (n + 1) + b) / 2 = a * 2 ^ n + b / 2 := by
      rw [ea, Nat.mul_add_div (by omega)]
    have f2 : (a * 2 ^ (n + 1) + b) % 2 = b % 2 := by
      rw [ea, Nat.mul_add_mod]
    have f3 : (c * 2 ^ (n + 1) + d) / 2 = c * 2 ^ n + d / 2 := by
      rw [ec, Nat.mul_add_div (by omega)]
    have f4 : (c * 2 ^ (n + 1) + d) % 2 = d % 2 := by
      rw [ec, Nat.mul_add_mod]
    have key := Nat.div_add_mod ((a * 2 ^ (n + 1) + b) ||| (c * 2 ^ (n + 1) + d)) 2
    rw [Nat.or_div_two, f1, f3, ihx] at key
    have keyr := Nat.div_add_mod (b ||| d) 2
    rw [Nat.or_div_two] at keyr
    have hm1 := Nat.or_mod_two_eq_one (a := a * 2 ^ (n + 1) + b) (b := c * 2 ^ (n + 1) + d)
    have hm2 := Nat.or_mod_two_eq_one (a := b) (b := d)
    rw [f2, f4] at hm1
    rw [eac]
    omega

theorem split_xor (n : ℕ) : ∀ a b c d : ℕ, b < 2 ^ n → d < 2 ^ n →
    (a * 2 ^ n + b) ^^^ (c * 2 ^ n + d) = (a ^^^ c) * 2 ^ n + (b ^^^ d) := by
  induction n with
  | zero =>
    intro a b c d hb hd
    simp only [pow_zero, Nat.lt_one_iff] at hb hd
    subst hb; subst hd
    simp
  | succ n ih =>
    intro a b c d hb hd
    have hp : (2 : ℕ) ^ (n + 1) = 2 * 2 ^ n := by ring
    have ihx := ih (a := a) (b := b / 2) (c := c) (d := d / 2) (by omega) (by omega)
    have ea : a * 2 ^ (n + 1) = 2 * (a * 2 ^ n) := by ring
    have ec : c * 2 ^ (n + 1) = 2 * (c * 2 ^ n) := by ring
    have eac : (a ^^^ c) * 2 ^ (n + 1) = 2 * ((a ^^^ c) * 2 ^ n) := by ring
    have f1 : (a * 2 ^ (n + 1) + b) / 2 = a * 2 ^ n + b / 2 := by
      rw [ea, Nat.mul_add_div (by omega)]
    have f2 : (a * 2 ^ (n + 1) + b) % 2 = b % 2 := by
      rw [ea, Nat.mul_add_mod]
    have f3 : (c * 2 ^ (n + 1) + d) / 2 = c * 2 ^ n + d / 2 := by
      rw [ec, Nat.mul_add_div (by omega)]
    have f4 : (c * 2 ^ (n + 1) + d) % 2 = d % 2 := by
      rw [ec, Nat.mul_add_mod]
    have key := Nat.div_add_mod ((a * 2 ^ (n + 1) + b) ^^^ (c * 2 ^ (n + 1) + d)) 2
    rw [Nat.xor_div_two, f1, f3, ihx] at key
    have keyr := Nat.div_add_mod (b ^^^ d) 2
    rw [Nat.xor_div_two] at keyr
    have hm1 := Nat.xor_mod_two_eq_one (a := a * 2 ^ (n + 1) + b) (b := c * 2 ^ (n + 1) + d)
    have hm2 := Nat.xor_mod_two_eq_one (a := b) (b := d)
    rw [f2, f4] at hm1
    rw [eac]
    omega

theorem and_one_eq (x : ℕ) : x &&& 1 = x % 2 := by
  rw [Nat.land_comm]; exact Nat.one_and_eq_mod_two x

theorem and_mask_mod (x n : ℕ) : x &&& (2 ^ n - 1) = x % 2 ^ n :=
  Nat.and_pow_two_sub_one_eq_mod x n

theorem and_32767 (h : ℕ) : h &&& 32767 = h % 32768 := by
  have e : (32767 : ℕ) = 2 ^ 15 - 1 := by norm_num
  rw [e, and_mask_mod]; norm_num

theorem and_1023 (h : ℕ) : h &&& 1023 = h % 1024 := by
  have e : (1023 : ℕ) = 2 ^ 10 - 1 := by norm_num
  rw [e, and_mask_mod]; norm_num

theorem and_8388607 (h : ℕ) : h &&& 8388607 = h % 8388608 := by
  have e : (8388607 : ℕ) = 2 ^ 23 - 1 := by norm_num
  rw [e, and_mask_mod]; norm_num

theorem and_255 (h : ℕ) : h &&& 255 = h % 256 := by
  have e : (255 : ℕ) = 2 ^ 8 - 1 := by norm_num
  rw [e, and_mask_mod]; norm_num

theorem and_31 (h : ℕ) : h &&& 31 = h % 32 := by
  have e : (31 : ℕ) = 2 ^ 5 - 1 := by norm_num
  rw [e, and_mask_mod]; norm_num

theorem or_mul_add (a b n : ℕ) (hb : b < 2 ^ n) : a * 2 ^ n ||| b = a * 2 ^ n + b := by
  have hs := split_or n a 0 0 b (by positivity) hb
  simpa using hs

theorem and_32768 (h : ℕ) : h &&& 32768 = h / 32768 % 2 * 32768 := by
  have hs := split_and 15 (h / 32768) (h % 32768) 1 0 (by omega) (by norm_num)
  norm_num [and_one_eq] at hs
  have e : h / 32768 * 32768 + h % 32768 = h := by omega
  rwa [e] at hs

theorem and_31744 (h : ℕ) : h &&& 31744 = h / 1024 % 32 * 1024 := by
  have hs := split_and 10 (h / 1024) (h % 1024) 31 0 (by omega) (by norm_num)
  norm_num [and_31] at hs
  have e : h / 1024 * 1024 + h % 1024 = h := by omega
  rwa [e] at hs

theorem and_32640 (h : ℕ) : h &&& 32640 = h / 128 % 256 * 128 := by
  have hs := split_and 7 (h / 128) (h % 128) 255 0 (by omega) (by norm_num)
  norm_num [and_255] at hs
  have e : h / 128 * 128 + h % 128 = h := by omega
  rwa [e] at hs

theorem and_2139095040 (h : ℕ) : h &&& 2139095040 = h / 8388608 % 256 * 8388608 := by
  have hs := split_and 23 (h / 8388608) (h % 8388608) 255 0 (by omega) (by norm_num)
  norm_num [and_255] at hs
  have e : h / 8388608 * 8388608 + h % 8388608 = h := by omega
  rwa [e] at hs

theorem and_2147483648 (h : ℕ) : h &&& 2147483648 = h / 2147483648 % 2 * 2147483648 := by
  have hs := split_and 31 (h / 2147483648) (h % 2147483648) 1 0 (by omega) (by norm_num)
  norm_num [and_one_eq] at hs
  have e : h / 2147483648 * 2147483648 + h % 2147483648 = h := by omega
  rwa [e] at hs

/-! ### Claim theorems: direct evaluations -/

/-- C1: the claim says every finite input with `half_exponent ≥ 0x1F` narrows
to signed infinity, in particular `131072.0f`.  The code only tests
`half_exponent == 0x1f` (line 96), so `131072.0f` (bit pattern `0x48000000`,
`half_exponent = 32`) falls through to the normal-number path, where
`32 <<< 10 = 0x8000` corrupts the sign bit: the result is `0x8000` (negative
zero), not `sign ||| 0x7c00 = 0x7c00`. -/
theorem C1_overflow_returns_neg_zero :
    valQ 0x48000000 = 131072 ∧ half_exponent 0x48000000 = 32 ∧
    float32_to_float16 0x48000000 = 0x8000 ∧
    half_sign 0x48000000 ||| 0x7c00 = 0x7c00 ∧ (0x8000 : ℕ) ≠ 0x7c00 := by
  refine ⟨?_, by decide, by decide, by decide, by decide⟩
  have h1 : sval32 0x48000000 = ((2 ^ 166 : ℕ) : ℤ) := by decide
  unfold valQ
  rw [h1, div_eq_iff (by positivity)]
  push_cast
  norm_num

/-- C2: the claim says `float16_to_float32` renormalizes subnormals so that
e.g. `0x0001` widens to the exact value `2^-24` (scaled: `2^125`).  The
normalization loop condition `coef & 0x7f800000` (line 145) is never true
(`coef < 2^23` on entry), so the loop is dead code and `0x0001` widens to
`0x38802000`, whose value is `(1 + 2^-10) * 2^-14`, not `2^-24`. -/
theorem C2_subnormal_widen_wrong :
    float16_to_float32 0x0001 = 0x38802000 ∧ sval16 0x0001 = ((2 ^ 125 : ℕ) : ℤ) ∧
    sval32 0x38802000 ≠ ((2 ^ 125 : ℕ) : ℤ) := by
  refine ⟨by decide, by decide, by decide⟩

/-- C3 counterexample: the round-trip identity fails on the subnormal pattern
`0x0001`: `narrow (widen 0x0001) = 0x0401 ≠ 0x0001` (a consequence of the dead
normalization loop in `float16_to_float32`). -/
theorem C3_subnormal_roundtrip_fails :
    float32_to_float16 (float16_to_float32 0x0001) = 0x0401 ∧
    float32_to_float16 (float16_to_float32 0x0001) ≠ 0x0001 := by
  refine ⟨by decide, by decide⟩

/-- C4 counterexample: at `h = 0x0080` two of the claim's five categories hold
at once — the code's `is_normal` (whose `0x7f80` mask sees the nonzero bit 7)
and the claim's binary16 subnormal test (exponent field `0x7c00` clear and
fraction nonzero) — so the five categories are not mutually exclusive. -/
theorem C4_partition_fails_at_0x0080 :
    categoryCount 0x0080 = 2 ∧ is_normal 0x0080 = true ∧
    0x0080 &&& 0x7c00 = 0 ∧ 0x0080 &&& 0x3ff ≠ 0 := by
  refine ⟨by decide, by decide, by decide, by decide⟩

/-- C5 counterexample: with the claim's mask `2*round_bit - 1`, the rounding
condition holds at input `0x3F801000` (`1 + 2^-11`, whose `coef = 0x1000` is
an exact tie with even kept mantissa), so the claim predicts the truncated
mantissa is incremented; but the code (which uses `3*round_bit - 1`, line 118)
returns the unincremented pattern `0x3C00`. -/
theorem C5_tie_even_not_incremented :
    (f32_coef 0x3F801000 &&& 0x1000 ≠ 0 ∧
      f32_coef 0x3F801000 &&& (2 * 0x1000 - 1) ≠ 0) ∧
    float32_to_float16 0x3F801000 = 0x3C00 ∧
    half_sign 0x3F801000 ||| (half_exponent 0x3F801000).toNat <<< 10 |||
      f32_coef 0x3F801000 >>> 13 = 0x3C00 := by
  refine ⟨⟨by decide, by decide⟩, by decide, by decide⟩

/-- C7: the library's own NaN constant `fp16_nan = 0x7e00` is not recognized
by `is_nan`, and the infinity constant `fp16_infinity = 0x7c00` is not
recognized by `is_inf`, because both predicates compare against the
binary32-layout threshold `0x7f80` instead of the binary16 pattern `0x7c00`. -/
theorem C7_predicates_miss_own_constants :
    is_nan fp16_nan = false ∧ is_inf fp16_infinity = false ∧
    fp16_nan = 0x7e00 ∧ fp16_infinity = 0x7c00 := by
  refine ⟨by decide, by decide, by decide, by decide⟩

/-- C8: the `fmin` wrapper delegates to the same host max-function as `fmax`
(source line 416 passes `std::fmax`), so for every host max oracle and every
pair of half patterns the two wrappers return bit-identical results. -/
theorem C8_fmin_is_fmax :
    ∀ (hostFmax : Nat → Nat → Nat) (f1 f2 : Nat),
      fmin16 hostFmax f1 f2 = fmax16 hostFmax f1 f2 :=
  fun _ _ _ => rfl

/-- C10: when the host parse fails, stream extraction leaves the target bit
pattern unmodified and sets the failbit; when it succeeds with a binary32
value `v`, the target is assigned the narrowed value and no failbit is set. -/
theorem C10_parse_failure_leaves_target :
    ∀ (f v : Nat), istream_read none f = (f, true) ∧
      istream_read (some v) f = (float32_to_float16 v, false) :=
  fun _ _ => ⟨rfl, rfl⟩


theorem xor_32768_arith (h : ℕ) : h ^^^ 32768 = (h / 32768 ^^^ 1) * 32768 + h % 32768 := by
  have hs : h = h / 32768 * 32768 + h % 32768 := by omega
  have hlt : h % 32768 < 2 ^ 15 := by norm_num; omega
  have hx := split_xor 15 (h / 32768) (h % 32768) 1 0 hlt (by norm_num)
  norm_num at hx
  conv_lhs => rw [hs]
  exact hx

theorem float16_neg_eq_xor (h : ℕ) (hh : h < 65536) : float16_neg h = h ^^^ 32768 := by
  have hx := xor_32768_arith h
  unfold float16_neg to16
  rw [and_32767 h, hx]
  obtain hd | hd : h / 32768 = 0 ∨ h / 32768 = 1 := by omega
  · rw [hd]
    norm_num
    have ho := split_or 15 0 (h % 32768) 1 (h % 32768) (by norm_num; omega) (by norm_num; omega)
    norm_num [Nat.or_self] at ho
    rw [ho]
    omega
  · rw [hd]
    norm_num [Nat.or_self]
    omega

/-- C9: unary negation is exactly a flip of the sign bit: for every 16-bit
pattern, `operator-` returns `h ^^^ 0x8000`, it is an involution, it preserves
the low 15 bits (exponent and fraction), and it preserves binary16 NaN-ness. -/
theorem C9_negation_is_sign_xor :
    ∀ h, h < 65536 →
      float16_neg h = h ^^^ 0x8000 ∧
      float16_neg (float16_neg h) = h ∧
      float16_neg h &&& 0x7fff = h &&& 0x7fff ∧
      ((h &&& 0x7c00 = 0x7c00 ∧ h &&& 0x3ff ≠ 0) ↔
        (float16_neg h &&& 0x7c00 = 0x7c00 ∧ float16_neg h &&& 0x3ff ≠ 0)) := by
  intro h hh
  have h1 := float16_neg_eq_xor h hh
  have hx := xor_32768_arith h
  have hbound : h ^^^ 32768 < 65536 := by
    obtain hd | hd : h / 32768 = 0 ∨ h / 32768 = 1 := by omega
    · rw [hx, hd]; norm_num; omega
    · rw [hx, hd]; norm_num; omega
  refine ⟨h1, ?_, ?_, ?_⟩
  · rw [h1, float16_neg_eq_xor _ hbound, Nat.xor_cancel_right]
  · rw [h1, and_32767, and_32767, hx]
    obtain hd | hd : h / 32768 = 0 ∨ h / 32768 = 1 := by omega
    · rw [hd]; norm_num
    · rw [hd]; norm_num
  · have e1 : float16_neg h &&& 0x7c00 = h &&& 0x7c00 := by
      rw [h1, and_31744, and_31744, hx]
      obtain hd | hd : h / 32768 = 0 ∨ h / 32768 = 1 := by omega
      · rw [hd]; norm_num <;> omega
      · rw [hd]; norm_num <;> omega
    have e2 : float16_neg h &&& 0x3ff = h &&& 0x3ff := by
      rw [h1, and_1023, and_1023, hx]
      obtain hd | hd : h / 32768 = 0 ∨ h / 32768 = 1 := by omega
      · rw [hd]; norm_num <;> omega
      · rw [hd]; norm_num <;> omega
    rw [e1, e2]

/-- C9 witness: at the NaN pattern `0x7e01`, negation flips only the sign bit
(giving `0xfe01`) and applying it twice restores the pattern. -/
theorem C9_negation_witness :
    float16_neg 0x7e01 = 0x7e01 ^^^ 0x8000 ∧
    float16_neg (float16_neg 0x7e01) = 0x7e01 ∧
    (0x7e01 ^^^ 0x8000 : ℕ) = 0xfe01 :=
  ⟨(C9_negation_is_sign_xor 0x7e01 (by norm_num)).1,
   (C9_negation_is_sign_xor 0x7e01 (by norm_num)).2.1, by decide⟩


/-- C4 amended: the five categories are mutually exclusive and exhaustive once
`subnormal` is read through the same (float32-layout) exponent mask `0x7f80`
that the code's own predicates use (exponent-mask bits clear, some non-sign
bit set); and `is_finite` always equals the negation of `is_nan ∨ is_inf`.
With the claim's binary16 reading of `subnormal`, exclusivity fails (see the
counterexample at `0x0080`). -/
theorem C4_partition_with_code_mask :
    ∀ h, h < 65536 →
      categoryCountCodeMask h = 1 ∧ is_finite h = !(is_nan h || is_inf h) := by
  intro h hh
  constructor
  · simp only [categoryCountCodeMask, is_nan, is_inf, is_normal, Bool.and_eq_true,
      decide_eq_true_eq, gt_iff_lt]
    simp only [and_32767, and_32640]
    split_ifs <;> omega
  · simp only [is_finite, is_nan, is_inf, gt_iff_lt, and_32767, and_32640]
    by_cases h1 : 32640 < h % 32768 <;> by_cases h2 : h % 32768 = 32640 <;>
      simp [h1, h2] <;> omega

/-- C4 witness: the amended partition at the ordinary pattern `0x3c00`. -/
theorem C4_partition_witness :
    categoryCountCodeMask 0x3c00 = 1 ∧
    is_finite 0x3c00 = !(is_nan 0x3c00 || is_inf 0x3c00) :=
  C4_partition_with_code_mask 0x3c00 (by norm_num)


/-- C3 amended: the round trip `narrow (widen h) = h` holds bit-for-bit for
every finite pattern that is not subnormal: exponent field not `0x1f`, and
(exponent field zero → fraction zero).  This covers all normal patterns and
both signed zeros; subnormals are excluded (see the counterexample). -/
theorem C3_roundtrip_normal_and_zero :
    ∀ h, h < 65536 → h &&& 0x7c00 ≠ 0x7c00 → (h &&& 0x7c00 = 0 → h &&& 0x3ff = 0) →
      float32_to_float16 (float16_to_float32 h) = h := by
  intro h hh hninf hsub
  have m1 := and_32768 h
  have m2 := and_31744 h
  have m3 := and_1023 h
  have hsign : (h &&& 32768) <<< 16 = h / 32768 * 2147483648 := by
    rw [m1, Nat.shiftLeft_eq]
    omega
  have hexp : (h &&& 31744) >>> 10 = h / 1024 % 32 := by
    rw [m2, Nat.shiftRight_eq_div_pow]
    omega
  have hcoef : (h &&& 1023) <<< 13 = h % 1024 * 8192 := by
    rw [m3, Nat.shiftLeft_eq]
  have hninf' : h / 1024 % 32 ≠ 31 := by
    intro hc
    exact hninf (by rw [m2, hc])
  by_cases he0 : h / 1024 % 32 = 0
  · have hf0 : h % 1024 = 0 := by
      have h9 := hsub (by rw [m2, he0])
      rwa [m3] at h9
    have hw : float16_to_float32 h = h / 32768 * 2147483648 := by
      simp only [float16_to_float32]
      rw [hexp, hcoef, hsign]
      rw [if_neg hninf', if_pos he0, if_pos (by omega : h % 1024 * 8192 = 0)]
    rw [hw]
    have hfe : f32_exponent (h / 32768 * 2147483648) = 0 := by
      unfold f32_exponent
      rw [and_2139095040]
      omega
    have hhe : half_exponent (h / 32768 * 2147483648) = -112 := by
      unfold half_exponent unbiased_exponent
      rw [hfe]
      norm_num
    have hhs : half_sign (h / 32768 * 2147483648) = h / 32768 * 32768 := by
      unfold half_sign f32_sign
      rw [and_2147483648, Nat.shiftRight_eq_div_pow]
      omega
    simp only [float32_to_float16]
    rw [hfe, hhe, hhs]
    rw [if_neg (by norm_num), if_neg (by norm_num), if_pos (by norm_num),
      if_pos (by norm_num)]
    unfold to16
    omega
  · have hu32 : u32 ((h / 1024 % 32 + 112) <<< 23) = (h / 1024 % 32 + 112) * 8388608 := by
      unfold u32
      rw [Nat.shiftLeft_eq]
      omega
    have h2 : h / 32768 * 2147483648 ||| (h / 1024 % 32 + 112) * 8388608
        = h / 32768 * 2147483648 + (h / 1024 % 32 + 112) * 8388608 := by
      have hx := or_mul_add (h / 32768) ((h / 1024 % 32 + 112) * 8388608) 31 (by omega)
      norm_num at hx
      exact hx
    have h3 : h / 32768 * 2147483648 + (h / 1024 % 32 + 112) * 8388608
        = (h / 32768 * 256 + (h / 1024 % 32 + 112)) * 8388608 := by ring
    have h4 : (h / 32768 * 256 + (h / 1024 % 32 + 112)) * 8388608 ||| h % 1024 * 8192
        = (h / 32768 * 256 + (h / 1024 % 32 + 112)) * 8388608 + h % 1024 * 8192 := by
      have hx := or_mul_add (h / 32768 * 256 + (h / 1024 % 32 + 112)) (h % 1024 * 8192) 23
        (by omega)
      norm_num at hx
      exact hx
    have hw : float16_to_float32 h
        = h / 32768 * 2147483648 + (h / 1024 % 32 + 112) * 8388608 + h % 1024 * 8192 := by
      simp only [float16_to_float32]
      rw [hexp, hcoef, hsign]
      rw [if_neg hninf', if_neg he0, hu32, h2, h3, h4]
    rw [hw]
    have hfe : f32_exponent (h / 32768 * 2147483648 + (h / 1024 % 32 + 112) * 8388608
        + h % 1024 * 8192) = (h / 1024 % 32 + 112) * 8388608 := by
      unfold f32_exponent
      rw [and_2139095040]
      omega
    have hhe : half_exponent (h / 32768 * 2147483648 + (h / 1024 % 32 + 112) * 8388608
        + h % 1024 * 8192) = (h / 1024 % 32 : ℕ) := by
      unfold half_exponent unbiased_exponent
      rw [hfe, Nat.shiftRight_eq_div_pow]
      have hq : (h / 1024 % 32 + 112) * 8388608 / 2 ^ 23 = h / 1024 % 32 + 112 := by omega
      rw [hq]
      push_cast
      ring
    have hcw : f32_coef (h / 32768 * 2147483648 + (h / 1024 % 32 + 112) * 8388608
        + h % 1024 * 8192) = h % 1024 * 8192 := by
      unfold f32_coef
      rw [and_8388607]
      omega
    have hhsw : half_sign (h / 32768 * 2147483648 + (h / 1024 % 32 + 112) * 8388608
        + h % 1024 * 8192) = h / 32768 * 32768 := by
      unfold half_sign f32_sign
      rw [and_2147483648, Nat.shiftRight_eq_div_pow]
      omega
    simp only [float32_to_float16]
    rw [hfe, hhe, hcw, hhsw]
    rw [if_neg (by omega : ¬(h / 1024 % 32 + 112) * 8388608 = 2139095040),
      if_neg (by omega : ¬((h / 1024 % 32 : ℕ) : ℤ) = 31),
      if_neg (by omega : ¬((h / 1024 % 32 : ℕ) : ℤ) ≤ 0)]
    rw [Int.toNat_natCast]
    have hrc : h % 1024 * 8192 &&& 4096 = 0 := by
      have hx := split_and 13 (h % 1024) 0 0 4096 (by norm_num) (by norm_num)
      norm_num at hx
      exact hx
    rw [if_neg (by rw [hrc]; exact fun hcon => hcon.1 rfl)]
    rw [Nat.shiftLeft_eq, Nat.shiftRight_eq_div_pow]
    have hdiv : h % 1024 * 8192 / 2 ^ 13 = h % 1024 := by omega
    rw [hdiv]
    have h5 : h / 32768 * 32768 ||| h / 1024 % 32 * 2 ^ 10
        = h / 32768 * 32768 + h / 1024 % 32 * 1024 := by
      have hx := or_mul_add (h / 32768) (h / 1024 % 32 * 1024) 15 (by omega)
      norm_num at hx
      rw [show h / 1024 % 32 * 2 ^ 10 = h / 1024 % 32 * 1024 by norm_num]
      exact hx
    rw [h5]
    rw [show h / 32768 * 32768 + h / 1024 % 32 * 1024
      = (h / 32768 * 32 + h / 1024 % 32) * 1024 from by ring]
    have h7 : (h / 32768 * 32 + h / 1024 % 32) * 1024 ||| h % 1024
        = (h / 32768 * 32 + h / 1024 % 32) * 1024 + h % 1024 := by
      have hx := or_mul_add (h / 32768 * 32 + h / 1024 % 32) (h % 1024) 10 (by omega)
      norm_num at hx
      exact hx
    rw [h7]
    unfold to16
    omega

/-- C3 witness: the round trip at the ordinary pattern `0x3c00` (one). -/
theorem C3_roundtrip_witness :
    float32_to_float16 (float16_to_float32 0x3c00) = 0x3c00 :=
  C3_roundtrip_normal_and_zero 0x3c00 (by norm_num) (by decide) (by decide)


theorem and_two_pow_val (c k : ℕ) : c &&& 2 ^ k = c / 2 ^ k % 2 * 2 ^ k := by
  rw [Nat.and_two_pow, Nat.testBit_to_div_mod]
  rcases Nat.mod_two_eq_zero_or_one (c / 2 ^ k) with hm | hm <;> simp [hm]

theorem and_three_two_pow_sub_one (c k : ℕ) :
    c &&& (3 * 2 ^ k - 1) = c / 2 ^ (k + 1) % 2 * 2 ^ (k + 1) + c % 2 ^ k := by
  have hP : 0 < 2 ^ k := Nat.two_pow_pos k
  have hp1 : (2 : ℕ) ^ (k + 1) = 2 * 2 ^ k := by ring
  have hp2 : (2 : ℕ) ^ (k + 2) = 4 * 2 ^ k := by ring
  have hmlt : 3 * 2 ^ k - 1 < 2 ^ (k + 2) := by omega
  have s1 := split_and (k + 2) (c / 2 ^ (k + 2)) (c % 2 ^ (k + 2)) 0 (3 * 2 ^ k - 1)
    (Nat.mod_lt _ (by positivity)) hmlt
  rw [Nat.zero_mul, Nat.zero_add, Nat.and_zero, Nat.zero_mul, Nat.zero_add] at s1
  have s2 : c / 2 ^ (k + 2) * 2 ^ (k + 2) + c % 2 ^ (k + 2) = c := by
    rw [Nat.mul_comm]; exact Nat.div_add_mod c _
  rw [s2] at s1
  rw [s1]
  have hm3 : 3 * 2 ^ k - 1 = 2 * 2 ^ k + (2 ^ k - 1) := by omega
  have s3 := split_and k (c % 2 ^ (k + 2) / 2 ^ k) (c % 2 ^ (k + 2) % 2 ^ k) 2 (2 ^ k - 1)
    (Nat.mod_lt _ (by positivity)) (by omega)
  have s4 : c % 2 ^ (k + 2) / 2 ^ k * 2 ^ k + c % 2 ^ (k + 2) % 2 ^ k = c % 2 ^ (k + 2) := by
    rw [Nat.mul_comm]; exact Nat.div_add_mod _ _
  rw [s4, and_mask_mod, Nat.mod_mod_of_dvd _ dvd_rfl] at s3
  rw [hm3, s3]
  have e1 : c % 2 ^ (k + 2) % 2 ^ k = c % 2 ^ k :=
    Nat.mod_mod_of_dvd c ⟨4, by ring⟩
  have ht2 : c % 2 ^ (k + 2) / 2 ^ k &&& 2 = c % 2 ^ (k + 2) / 2 ^ k / 2 % 2 * 2 := by
    have hv := and_two_pow_val (c % 2 ^ (k + 2) / 2 ^ k) 1
    norm_num at hv
    exact hv
  have e3 : c % 2 ^ (k + 2) / 2 ^ k / 2 = c / 2 ^ (k + 1) % 2 := by
    rw [Nat.div_div_eq_div_mul]
    rw [show (2 : ℕ) ^ k * 2 = 2 ^ (k + 1) from by ring]
    rw [show (2 : ℕ) ^ (k + 2) = 2 ^ (k + 1) * 2 from by ring]
    exact Nat.mod_mul_right_div_self c (2 ^ (k + 1)) 2
  rw [ht2, e3, Nat.mod_mod_of_dvd (c / 2 ^ (k + 1)) (dvd_refl 2), e1, hp1]
  ring

theorem rne_arith (P Q A B x y : ℕ) (hQ : Q = 2 * P) (hPpos : 0 < P) (hA : A < P)
    (hB : B = A + P * x) (hx : x < 2) (hy : y < 2) :
    (x * P ≠ 0 ∧ y * Q + A ≠ 0) ↔ (P < B ∨ (B = P ∧ y = 1)) := by
  rcases (by omega : x = 0 ∨ x = 1) with h | h <;> subst h <;>
    rcases (by omega : y = 0 ∨ y = 1) with h | h <;> subst h <;>
      simp <;> omega

theorem round_cond_iff (c k : ℕ) :
    (c &&& 2 ^ k ≠ 0 ∧ c &&& (3 * 2 ^ k - 1) ≠ 0) ↔ rne_round_up c k := by
  have hP : 0 < 2 ^ k := Nat.two_pow_pos k
  have hp1 : (2 : ℕ) ^ (k + 1) = 2 * 2 ^ k := by ring
  rw [and_two_pow_val, and_three_two_pow_sub_one]
  unfold rne_round_up
  have hm : c % 2 ^ (k + 1) = c % 2 ^ k + 2 ^ k * (c / 2 ^ k % 2) := by
    rw [hp1, Nat.mul_comm 2 (2 ^ k)]
    exact Nat.mod_mul
  exact rne_arith (2 ^ k) (2 ^ (k + 1)) (c % 2 ^ k) (c % 2 ^ (k + 1))
    (c / 2 ^ k % 2) (c / 2 ^ (k + 1) % 2) hp1 hP (Nat.mod_lt _ hP) hm
    (Nat.mod_lt _ (by norm_num)) (Nat.mod_lt _ (by norm_num))


/-- C5 amended: the truncated mantissa is incremented exactly when
`(significand &&& round_bit) ≠ 0` and `(significand &&& (3*round_bit - 1)) ≠ 0`
(the code's mask is `3*round_bit - 1`, not the claim's `2*round_bit - 1`, whose
second conjunct is redundant and would round ties away from zero), and this
composite condition is exactly round-to-nearest ties-to-even: in both the
normal path (`round_bit = 0x1000`, significand = 23-bit fraction) and the
subnormal path (`round_bit = 1 <<< (13 - half_exponent)`, significand =
implicit-bit-augmented fraction) the result is the truncated mantissa plus one
exactly under the `rne_round_up` arithmetic condition (discarded part above
half an ulp, or exactly half with odd kept mantissa). -/
theorem C5_round_nearest_even_mask :
    ∀ u, u < 2 ^ 32 →
      (0 < half_exponent u ∧ half_exponent u < 31 →
        float32_to_float16 u = to16 ((half_sign u ||| (half_exponent u).toNat <<< 10 |||
          f32_coef u >>> 13) + if rne_round_up (f32_coef u) 12 then 1 else 0)) ∧
      (-10 ≤ half_exponent u ∧ half_exponent u ≤ 0 →
        float32_to_float16 u = to16 (half_sign u |||
          ((f32_coef u ||| 0x800000) >>> (14 - half_exponent u).toNat +
            if rne_round_up (f32_coef u ||| 0x800000) (13 - half_exponent u).toNat
            then 1 else 0))) := by
  intro u hu
  constructor
  · rintro ⟨hlo, hhi⟩
    have hne : f32_exponent u ≠ 0x7f800000 := by
      intro hc
      have hv : half_exponent u = 143 := by
        unfold half_exponent unbiased_exponent
        rw [hc]
        decide
      omega
    simp only [float32_to_float16]
    rw [if_neg hne, if_neg (by omega), if_neg (by omega)]
    have hiff := round_cond_iff (f32_coef u) 12
    norm_num at hiff
    rw [show (3 : ℕ) * 4096 - 1 = 12287 from by norm_num]
    rw [if_congr hiff rfl rfl]
    split_ifs with hr
    · rfl
    · rfl
  · rintro ⟨hlo, hhi⟩
    have hne : f32_exponent u ≠ 0x7f800000 := by
      intro hc
      have hv : half_exponent u = 143 := by
        unfold half_exponent unbiased_exponent
        rw [hc]
        decide
      omega
    simp only [float32_to_float16]
    rw [if_neg hne, if_neg (by omega), if_pos (by omega), if_neg (by omega)]
    rw [Nat.one_shiftLeft]
    have hiff := round_cond_iff (f32_coef u ||| 0x800000) (13 - half_exponent u).toNat
    rw [if_congr hiff rfl rfl]
    split_ifs with hr
    · rfl
    · rfl

/-- C5 witness: at `0x3F801001` (just above an exact tie, sticky bit set) the
normal path rounds up to `0x3C01`; at `0x387FDA40` the subnormal path keeps
the truncated mantissa `0x3FF`. -/
theorem C5_round_witness :
    float32_to_float16 0x3F801001 = 0x3C01 ∧
    float32_to_float16 0x387FDA40 = 0x03FF := by
  constructor
  · have h := (C5_round_nearest_even_mask 0x3F801001 (by norm_num)).1 (by decide)
    rw [h]
    decide
  · have h := (C5_round_nearest_even_mask 0x387FDA40 (by norm_num)).2 (by decide)
    rw [h]
    decide


theorem smag32_eq (v : ℕ) (hv : v < 2 ^ 31) :
    smag32 v = if v / 8388608 = 0 then v % 8388608
      else (8388608 + v % 8388608) * 2 ^ (v / 8388608 - 1) := by
  unfold smag32
  rw [Nat.shiftRight_eq_div_pow, and_255, and_8388607]
  rw [show (2 : ℕ) ^ 23 = 8388608 from by norm_num]
  rw [Nat.mod_eq_of_lt (by omega : v / 8388608 < 256)]

theorem smag32_mono (v1 v2 : ℕ) (h12 : v1 < v2) (h2 : v2 < 2139095040) :
    smag32 v1 < smag32 v2 := by
  rw [smag32_eq v1 (by omega), smag32_eq v2 (by omega)]
  have he12 : v1 / 8388608 ≤ v2 / 8388608 := Nat.div_le_div_right (by omega)
  split_ifs with ha hb hb
  · omega
  · have hp : 1 ≤ 2 ^ (v2 / 8388608 - 1) := Nat.one_le_two_pow
    have hstep : 8388608 + v2 % 8388608 ≤ (8388608 + v2 % 8388608) * 2 ^ (v2 / 8388608 - 1) :=
      Nat.le_mul_of_pos_right _ (by omega)
    omega
  · omega
  · rcases Nat.eq_or_lt_of_le he12 with heq | hlt
    · rw [heq]
      exact mul_lt_mul_of_pos_right (by omega) (Nat.two_pow_pos _)
    · calc (8388608 + v1 % 8388608) * 2 ^ (v1 / 8388608 - 1)
          < 16777216 * 2 ^ (v1 / 8388608 - 1) :=
            mul_lt_mul_of_pos_right (by omega) (Nat.two_pow_pos _)
        _ = 8388608 * 2 ^ (v1 / 8388608) := by
            have hy : v1 / 8388608 = v1 / 8388608 - 1 + 1 := by omega
            calc 16777216 * 2 ^ (v1 / 8388608 - 1)
                = 8388608 * (2 ^ (v1 / 8388608 - 1) * 2) := by ring
              _ = 8388608 * 2 ^ (v1 / 8388608 - 1 + 1) := by rw [pow_succ]
              _ = 8388608 * 2 ^ (v1 / 8388608) := by rw [← hy]
        _ ≤ 8388608 * 2 ^ (v2 / 8388608 - 1) :=
            Nat.mul_le_mul_left _ (Nat.pow_le_pow_right (by norm_num) (by omega))
        _ ≤ (8388608 + v2 % 8388608) * 2 ^ (v2 / 8388608 - 1) :=
            Nat.mul_le_mul_right _ (by omega)

theorem sval32_of_pos (v : ℕ) (hv : v < 2 ^ 31) : sval32 v = (smag32 v : ℤ) := by
  unfold sval32
  rw [Nat.shiftRight_eq_div_pow, Nat.div_eq_of_lt hv]
  norm_num

theorem sval32_nonpos (v : ℕ) (h1 : 2 ^ 31 ≤ v) (h2 : v < 2 ^ 32) : sval32 v ≤ 0 := by
  unfold sval32
  rw [Nat.shiftRight_eq_div_pow, show v / 2 ^ 31 = 1 from by omega]
  norm_num

theorem valQ_le_valQ (v1 v2 : ℕ) (h12 : v1 ≤ v2) (h2 : v2 < 2139095040) :
    valQ v1 ≤ valQ v2 := by
  rcases Nat.eq_or_lt_of_le h12 with heq | hlt
  · rw [heq]
  · unfold valQ
    rw [div_le_div_right (by positivity)]
    rw [sval32_of_pos v1 (by omega), sval32_of_pos v2 (by omega)]
    have hm := smag32_mono v1 v2 hlt h2
    exact_mod_cast le_of_lt hm

theorem valQ_nonpos (v : ℕ) (h1 : 2 ^ 31 ≤ v) (h2 : v < 2 ^ 32) : valQ v ≤ 0 := by
  unfold valQ
  refine div_nonpos_iff.mpr (Or.inr ⟨?_, by positivity⟩)
  exact_mod_cast sval32_nonpos v h1 h2

theorem f32_finite_lt (v : ℕ) (hv : v < 2 ^ 31) (hf : f32_finite v) : v < 2139095040 := by
  unfold f32_finite at hf
  rw [and_2139095040] at hf
  by_contra hcon
  apply hf
  omega

theorem isNearest_of_bracket (w0 : ℕ) (q : ℚ) (h0 : 0 < w0) (h1 : w0 + 1 < 2139095040)
    (hA : |valQ w0 - q| < q - valQ (w0 - 1))
    (hB : |valQ w0 - q| < valQ (w0 + 1) - q)
    (hC : |valQ w0 - q| < q) :
    isNearestF32 w0 q := by
  refine ⟨by norm_num; omega, ?_, ?_⟩
  · unfold f32_finite
    rw [and_2139095040]
    omega
  · intro v hv32 hvf hne
    norm_num at hv32
    by_cases hs : v < 2 ^ 31
    · have hvlt : v < 2139095040 := f32_finite_lt v hs hvf
      rcases Nat.lt_or_ge v w0 with hlt | hge
      · have hle : valQ v ≤ valQ (w0 - 1) :=
          valQ_le_valQ v (w0 - 1) (by omega) (by omega)
        calc |valQ w0 - q| < q - valQ (w0 - 1) := hA
          _ ≤ q - valQ v := by linarith
          _ ≤ |valQ v - q| := by rw [abs_sub_comm]; exact le_abs_self _
      · have hge1 : w0 + 1 ≤ v := by omega
        have hle : valQ (w0 + 1) ≤ valQ v := valQ_le_valQ (w0 + 1) v hge1 hvlt
        calc |valQ w0 - q| < valQ (w0 + 1) - q := hB
          _ ≤ valQ v - q := by linarith
          _ ≤ |valQ v - q| := le_abs_self _
    · have hnp : valQ v ≤ 0 := valQ_nonpos v (by omega) (by norm_num; omega)
      calc |valQ w0 - q| < q := hC
        _ ≤ q - valQ v := by linarith
        _ ≤ |valQ v - q| := by rw [abs_sub_comm]; exact le_abs_self _


theorem nearest_596e10 : isNearestF32 0x337FFAE5 (596 / 10 ^ 10) := by
  have e4 : sval32 0x337FFAE4 = ((16775908 * 2 ^ 101 : ℕ) : ℤ) := by decide
  have e5 : sval32 0x337FFAE5 = ((16775909 * 2 ^ 101 : ℕ) : ℤ) := by decide
  have e6 : sval32 0x337FFAE6 = ((16775910 * 2 ^ 101 : ℕ) : ℤ) := by decide
  have habs : |valQ 0x337FFAE5 - 596 / 10 ^ 10| = valQ 0x337FFAE5 - 596 / 10 ^ 10 := by
    apply abs_of_pos
    unfold valQ
    rw [e5]
    push_cast
    norm_num
  apply isNearest_of_bracket
  · norm_num
  · norm_num
  · rw [habs, show (0x337FFAE5 - 1 : ℕ) = 0x337FFAE4 from by norm_num]
    unfold valQ
    rw [e5, e4]
    push_cast
    norm_num
  · rw [habs, show (0x337FFAE5 + 1 : ℕ) = 0x337FFAE6 from by norm_num]
    unfold valQ
    rw [e5, e6]
    push_cast
    norm_num
  · rw [habs]
    unfold valQ
    rw [e5]
    push_cast
    norm_num

theorem nearest_61e6 : isNearestF32 0x387FDA40 (61 / 10 ^ 6) := by
  have e4 : sval32 0x387FDA3F = ((16767551 * 2 ^ 111 : ℕ) : ℤ) := by decide
  have e5 : sval32 0x387FDA40 = ((16767552 * 2 ^ 111 : ℕ) : ℤ) := by decide
  have e6 : sval32 0x387FDA41 = ((16767553 * 2 ^ 111 : ℕ) : ℤ) := by decide
  have habs : |valQ 0x387FDA40 - 61 / 10 ^ 6| = 61 / 10 ^ 6 - valQ 0x387FDA40 := by
    rw [abs_sub_comm]
    apply abs_of_pos
    unfold valQ
    rw [e5]
    push_cast
    norm_num
  apply isNearest_of_bracket
  · norm_num
  · norm_num
  · rw [habs, show (0x387FDA40 - 1 : ℕ) = 0x387FDA3F from by norm_num]
    unfold valQ
    rw [e5, e4]
    push_cast
    norm_num
  · rw [habs, show (0x387FDA40 + 1 : ℕ) = 0x387FDA41 from by norm_num]
    unfold valQ
    rw [e5, e6]
    push_cast
    norm_num
  · rw [habs]
    unfold valQ
    rw [e5]
    push_cast
    norm_num

/-- C6 counterexample: the unique nearest binary32 pattern to `5.96e-8` is
`0x337FFAE5` (value `16775909 / 2^48 ≈ 5.9600001e-8`), and the code narrows it
to the minimum positive subnormal `0x0001`, not `+0`: `5.96e-8` is within a
quarter ulp of the minimum subnormal `2^-24 ≈ 5.9605e-8` itself, far above the
`2^-25` underflow-to-zero threshold the claim assumes. -/
theorem C6_nearest_596e10_not_zero :
    isNearestF32 0x337FFAE5 (596 / 10 ^ 10) ∧
    float32_to_float16 0x337FFAE5 = 0x0001 ∧ (0x0001 : ℕ) ≠ 0x0000 :=
  ⟨nearest_596e10, by decide, by decide⟩

/-- C6 amended: `65520.0f` (pattern `0x477FF000`) narrows to `+infinity`; the
32-bit float nearest to `5.96e-8` narrows to the minimum positive subnormal
`0x0001` (not `+0`: `5.96e-8` is just below the minimum subnormal `2^-24`, not
below `2^-25`); and the 32-bit float nearest to `6.1e-5` narrows to the
maximum subnormal `0x03FF` (not the minimum normal `0x0400`: `float32(6.1e-5)
≈ 6.09999988e-5` lies below the midpoint `6.10053539e-5` of the two). -/
theorem C6_boundary_outputs :
    (valQ 0x477FF000 = 65520 ∧ float32_to_float16 0x477FF000 = 0x7c00) ∧
    (isNearestF32 0x337FFAE5 (596 / 10 ^ 10) ∧ float32_to_float16 0x337FFAE5 = 0x0001) ∧
    (isNearestF32 0x387FDA40 (61 / 10 ^ 6) ∧ float32_to_float16 0x387FDA40 = 0x03ff) := by
  refine ⟨⟨?_, by decide⟩, ⟨nearest_596e10, by decide⟩, ⟨nearest_61e6, by decide⟩⟩
  have e : sval32 0x477FF000 = ((16773120 * 2 ^ 141 : ℕ) : ℤ) := by decide
  unfold valQ
  rw [e]
  push_cast
  norm_num

end Float16T
